import Mathlib

/-!
Verification of the parcel-merging core of parcelwfs, embedded from
src/parcelwfs/parcels.py.  The geometric kernels (shapely / geopandas) are an
external capability of the program; they are modelled by the `GeoModel`
interface and, for concrete evaluation, instantiated with a discrete
one-dimensional cell model (`toyGeo`): a geometry is a finite set of unit
cells, two cells c and c+1 are adjacent, a polygon is a single run of
consecutive cells.  A GeoDataFrame is modelled as a list of rows, each row
carrying its pandas index label, its geometry, the merged_geometries column
(with none both for a null value and for an absent column) and the remaining
attribute columns positionally (none encoding NaN).
-/

namespace ParcelWFS

attribute [local semireducible] Rat.inv Rat.mul Rat.add Rat.sub Rat.ofScientific

set_option linter.unusedSectionVars false
set_option linter.unusedVariables false

deriving instance DecidableEq for Except

inductive MergingCriteria where
  | shortest_boundary
  | longest_intersection
deriving DecidableEq

/-- Runtime errors raised by the modelled code paths. -/
inductive PyErr where
  /-- parcels.py:657, neither min_area nor min_width was given -/
  | valueErrorNoThreshold
  /-- pandas, truth value of a Series with length other than one -/
  | valueErrorSeriesTruth
  /-- pandas, label lookup miss -/
  | keyError
  /-- reading a missing attribute of a scalar geometry -/
  | attributeErr
  /-- reading a local variable that was never assigned -/
  | unboundLocal
deriving DecidableEq

/-- One row of a GeoDataFrame: pandas index label, geometry, the
merged_geometries column and the remaining attribute columns. -/
structure Row (G V : Type) where
  idx : ℕ
  geometry : G
  merged : Option (List ℕ)
  attrs : List (Option V)
deriving DecidableEq

/-- The external geometry capability consumed by the merging core. -/
structure GeoModel (G : Type) where
  union : G → G → G
  unionAll : List G → G
  inter : G → G → G
  isEmpty : G → Bool
  isPolygon : G → Bool
  length : G → ℚ
  area : G → ℚ
  buffer : G → ℚ → G
  within : G → G → Bool
  explode : G → List G

variable {G V : Type} [DecidableEq G] [DecidableEq V]

/-- parcels.py:388 keep_equal_values: the mode of the column when the number
of distinct non-null values is exactly one, else null. -/
def keep_equal_values (col : List (Option V)) : Option V :=
  match (col.filterMap id).dedup with
  | [v] => some v
  | _ => none

/-- parcels.py:407 merge_to_single_parts: dissolve all rows into one row,
aggregating every non-geometry column with keep_equal_values, explode the
dissolved geometry into single parts and reset the index to 0,1,2,... -/
def merge_to_single_parts (M : GeoModel G) (gdf : List (Row G V)) : List (Row G V) :=
  let aggMerged := keep_equal_values (gdf.map Row.merged)
  let width := (gdf.head?.map (fun r => r.attrs.length)).getD 0
  let aggAttrs := (List.range width).map
    (fun j => keep_equal_values (gdf.map (fun r => r.attrs.getD j none)))
  ((M.explode (M.unionAll (gdf.map Row.geometry))).enum).map
    (fun p => ⟨p.1, p.2, aggMerged, aggAttrs⟩)

/-- parcels.py:513 get_contained_indices. -/
def get_contained_indices (M : GeoModel G) (gdf : List (Row G V))
    (containing_geometry : G) : List ℕ :=
  (gdf.filter (fun r => M.within r.geometry containing_geometry)).map Row.idx

/-- parcels.py:519 add_merged_geometries_property: reset the
merged_geometries column to null, then record the list of contained original
indices for every row containing more than one. -/
def add_merged_geometries_property (M : GeoModel G)
    (gdf_merged gdf_original : List (Row G V)) : List (Row G V) :=
  gdf_merged.map (fun r =>
    let mg := get_contained_indices M gdf_original r.geometry
    { r with merged := if 1 < mg.length then some mg else none })

/-- parcels.py:429 merge_by_shortest_boundary: union the candidate with every
target, keep the unions whose geom_type is Polygon, return none if no union
survives, else replace the geometry of the first target whose union has the
minimal boundary length (pandas idxmin) by that union. -/
def merge_by_shortest_boundary (M : GeoModel G) (candidate : Row G V)
    (targets : List (Row G V)) : Option (List (Row G V)) :=
  let merged_geometries := targets.map
    (fun t => (t.idx, M.union candidate.geometry t.geometry))
  let merged_single_parts := merged_geometries.filter (fun p => M.isPolygon p.2)
  match merged_single_parts with
  | [] => none
  | p :: ps =>
    let best := ps.foldl (fun acc q => if M.length q.2 < M.length acc.2 then q else acc) p
    some (targets.map (fun t =>
      if t.idx = best.1 then { t with geometry := best.2 } else t))

/-- parcels.py:471 merge_by_longest_intersection.  The filtering line applies
the Python not operator to a pandas Series of booleans: with exactly one row
this produces a plain Bool which is then used as a lookup label (False and
True compare equal to the labels 0 and 1), with any other number of rows it
raises a ValueError about an ambiguous Series truth value; in every case the
function raises before reaching a return, so the selection and union code
below the filter (parcels.py:500) is dead. -/
def merge_by_longest_intersection (M : GeoModel G) (candidate : Row G V)
    (targets : List (Row G V)) : Except PyErr (Option (List (Row G V))) :=
  let intersections := targets.map
    (fun t => (t.idx, M.inter candidate.geometry t.geometry))
  match intersections with
  | [p] =>
    let key : ℕ := if ! M.isEmpty p.2 then 1 else 0
    if targets.any (fun t => t.idx == key) then
      .error .attributeErr
    else
      .error .keyError
  | _ => .error .valueErrorSeriesTruth

/-- Body of the inner for-loop of parcels.py:543: dispatch on the criteria;
with an unsupported criteria value the variable tmp_targets is read without
ever having been assigned. -/
def pass_step (M : GeoModel G) (criteria : Option MergingCriteria)
    (candidate : Row G V) (targets : List (Row G V)) :
    Except PyErr (Option (List (Row G V))) :=
  match criteria with
  | some .shortest_boundary => .ok (merge_by_shortest_boundary M candidate targets)
  | some .longest_intersection => merge_by_longest_intersection M candidate targets
  | none => .error .unboundLocal

/-- One full pass of the while-loop of parcels.py:539 over the snapshot
current_candidates, threading (updated_candidates, updated_targets,
something_merged); a successful merge drops the candidate label from the
updated candidates. -/
def merge_pass (M : GeoModel G) (criteria : Option MergingCriteria) :
    List (Row G V) → List (Row G V) × List (Row G V) × Bool →
    Except PyErr (List (Row G V) × List (Row G V) × Bool)
  | [], st => .ok st
  | candidate :: rest, (cands, targets, m) =>
    match pass_step M criteria candidate targets with
    | .error e => .error e
    | .ok none => merge_pass M criteria rest (cands, targets, m)
    | .ok (some tmp) =>
      merge_pass M criteria rest
        (cands.filter (fun r => r.idx != candidate.idx), tmp, true)

/-- The while-True loop of parcels.py:539, with explicit fuel: run a pass
over the snapshot of the current candidates; if something merged, loop,
else return (updated_targets, updated_candidates). -/
def merge_loop (M : GeoModel G) (criteria : Option MergingCriteria) :
    ℕ → List (Row G V) → List (Row G V) →
    Except PyErr (List (Row G V) × List (Row G V))
  | 0, cands, targets => .ok (targets, cands)
  | fuel + 1, cands, targets =>
    match merge_pass M criteria cands (cands, targets, false) with
    | .error e => .error e
    | .ok (c, t, somethingMerged) =>
      if somethingMerged then merge_loop M criteria fuel c t else .ok (t, c)

/-- parcels.py:532 merge_geometries_by_criteria.  A pass that merges strictly
decreases the candidate count, so candidates.length + 1 passes always suffice
and the fuel below is never exhausted (this is the content of the C7
termination theorem). -/
def merge_geometries_by_criteria (M : GeoModel G)
    (candidates targets : List (Row G V)) (criteria : Option MergingCriteria) :
    Except PyErr (List (Row G V) × List (Row G V)) :=
  merge_loop M criteria (candidates.length + 1) candidates targets

/-- Recursion of parcels.py:560 update_index over the rows. -/
def update_index_go (gdf : List (Row G V)) (current_max_idx : ℕ) :
    List (Row G V) × ℕ :=
  match gdf with
  | [] => ([], current_max_idx)
  | r :: rest =>
    match r.merged with
    | none =>
      let res := update_index_go rest current_max_idx
      (r :: res.1, res.2)
    | some _ =>
      let res := update_index_go rest (current_max_idx + 1)
      ({ r with idx := current_max_idx + 1 } :: res.1, res.2)

/-- parcels.py:560 update_index: rows with a merged_geometries value get
fresh sequential indices above current_max_idx, rows without keep their
current index. -/
def update_index (gdf : List (Row G V)) (current_max_idx : ℕ) :
    List (Row G V) × ℕ :=
  update_index_go gdf current_max_idx

/-- parcels.py:575 split_by_min_area. -/
def split_by_min_area (M : GeoModel G) (gdf : List (Row G V)) (min_area : ℚ) :
    List (Row G V) × List (Row G V) :=
  (gdf.filter (fun r => decide (M.area r.geometry / 10000 < min_area)),
   gdf.filter (fun r => decide (M.area r.geometry / 10000 ≥ min_area)))

/-- parcels.py:583 split_by_min_width: a row is undersized when buffering its
geometry by the negative half width empties it. -/
def split_by_min_width (M : GeoModel G) (gdf : List (Row G V)) (min_width : ℚ) :
    List (Row G V) × List (Row G V) :=
  (gdf.filter (fun r => M.isEmpty (M.buffer r.geometry (-(min_width / 2)))),
   gdf.filter (fun r => ! M.isEmpty (M.buffer r.geometry (-(min_width / 2)))))

/-- parcels.py:592 split_by_rule.  With both thresholds the undersized labels
are the pandas Index.union of the two undersized label sets (sorted,
deduplicated) and looked up with loc; with neither threshold the local
gdf_lt is read without ever having been assigned. -/
def split_by_rule (M : GeoModel G) (gdf : List (Row G V))
    (min_area min_width : Option ℚ) :
    Except PyErr (List (Row G V) × List (Row G V)) :=
  match min_area, min_width with
  | none, none => .error .unboundLocal
  | some a, none => .ok (split_by_min_area M gdf a)
  | none, some w => .ok (split_by_min_width M gdf w)
  | some a, some w =>
    let lt_area := (split_by_min_area M gdf a).1
    let lt_width := (split_by_min_width M gdf w).1
    let ltIdx := List.insertionSort (· ≤ ·)
      ((lt_area.map Row.idx) ++ (lt_width.map Row.idx)).dedup
    .ok (ltIdx.filterMap (fun i => gdf.find? (fun r => r.idx == i)),
         gdf.filter (fun r => ! ltIdx.contains r.idx))

/-- gdf.index.max() of parcels.py:670. -/
def maxIndex (gdf : List (Row G V)) : ℕ :=
  (gdf.map Row.idx).foldl max 0

/-- Models gdf_ge_updates.dropna with axis 1 combined with the column
alignment performed by pd.concat at parcels.py:677: a column of the updates
frame that contains a null anywhere is dropped there and reappears as an
all-null column after alignment with the columns of gdf_ge. -/
def dropna_columns (updates : List (Row G V)) : List (Row G V) :=
  let mergedBad := updates.any (fun r => decide (r.merged = none))
  updates.map (fun r =>
    { r with
      merged := if mergedBad then none else r.merged,
      attrs := r.attrs.enum.map (fun p =>
        if updates.any (fun q => decide (q.attrs.getD p.1 none = none))
        then none else p.2) })

/-- pd.concat with ignore_index set at parcels.py:686: relabel the rows
0,1,2,... in order. -/
def reset_row_index (rows : List (Row G V)) : List (Row G V) :=
  rows.enum.map (fun p => { p.2 with idx := p.1 })

/-- parcels.py:664-688, the body of merge_geometries between the first split
and the final provenance recomputation: consolidate the undersized subset,
reindex it, promote consolidated entities that became adequate, run the
candidate-to-target loop, and concatenate an eventual unplaced remainder
with a reset index. -/
def merge_undersized_stage (M : GeoModel G) (gdf gdf_lt gdf_ge : List (Row G V))
    (min_area min_width : Option ℚ) (merging_criteria : Option MergingCriteria) :
    Except PyErr (List (Row G V)) :=
  if gdf_lt.isEmpty then .ok gdf_ge
  else
    let gdf_lt_merged := merge_to_single_parts M gdf_lt
    let gdf_lt_merged := add_merged_geometries_property M gdf_lt_merged gdf
    let upd := update_index gdf_lt_merged (maxIndex gdf)
    match split_by_rule M upd.1 min_area min_width with
    | .error e => .error e
    | .ok (gdf_lt2, gdf_ge_updates) =>
      let gdf_ge2 := if gdf_ge_updates.isEmpty then gdf_ge
        else gdf_ge ++ dropna_columns gdf_ge_updates
      match merge_geometries_by_criteria M gdf_lt2 gdf_ge2 merging_criteria with
      | .error e => .error e
      | .ok (gdf_ge3, gdf_lt3) =>
        .ok (if gdf_lt3.isEmpty then gdf_ge3
             else reset_row_index (gdf_ge3 ++ gdf_lt3))

/-- parcels.py:616 merge_geometries.  The second component of the result is
the list of indices logged at parcels.py:695 as still below the threshold
(empty when nothing is logged). -/
def merge_geometries (M : GeoModel G) (gdf : List (Row G V))
    (min_area min_width : Option ℚ) (merging_criteria : Option MergingCriteria) :
    Except PyErr (List (Row G V) × List ℕ) :=
  if min_area = none ∧ min_width = none then .error .valueErrorNoThreshold
  else
    match split_by_rule M gdf min_area min_width with
    | .error e => .error e
    | .ok (gdf_lt, gdf_ge) =>
      match merge_undersized_stage M gdf gdf_lt gdf_ge min_area min_width
        merging_criteria with
      | .error e => .error e
      | .ok gdf_updated =>
        let gdf_updated := add_merged_geometries_property M gdf_updated gdf
        match split_by_rule M gdf_updated min_area min_width with
        | .error e => .error e
        | .ok (gdf_lt_final, _) => .ok (gdf_updated, gdf_lt_final.map Row.idx)

/-! The concrete geometry capability: one-dimensional unit cells. -/

/-- Maximal runs of consecutive naturals in a (sorted) list. -/
def cellRuns : List ℕ → List (List ℕ)
  | [] => []
  | a :: rest =>
    match cellRuns rest with
    | [] => [[a]]
    | [] :: rs => [a] :: [] :: rs
    | (b :: rn) :: rs =>
      if b = a + 1 then (a :: b :: rn) :: rs else [a] :: (b :: rn) :: rs

/-- The elements of a cell set in ascending order. -/
def sortedCells (s : Finset ℕ) : List ℕ :=
  (List.range (s.sup id + 1)).filter (fun c => decide (c ∈ s))

/-- Connected components of a cell set, in ascending order. -/
def components (s : Finset ℕ) : List (Finset ℕ) :=
  (cellRuns (sortedCells s)).map List.toFinset

/-- Erosion for negative radii: a cell survives when all cells within the
rounded-up radius are present; nonnegative radii leave the set unchanged. -/
def toyBuffer (s : Finset ℕ) (r : ℚ) : Finset ℕ :=
  if 0 ≤ r then s
  else
    let d := Int.toNat ⌈-r⌉
    s.filter (fun c => d ≤ c ∧ ∀ j ∈ Finset.range (2 * d + 1), c - d + j ∈ s)

/-- The concrete instantiation of the geometry capability: a geometry is a
finite set of unit cells in a row, each of area 1000 square meters; a
single-part polygon is one run of consecutive cells. -/
def toyGeo : GeoModel (Finset ℕ) where
  union := fun a b => a ∪ b
  unionAll := fun l => l.foldl (fun a b => a ∪ b) ∅
  inter := fun a b => a ∩ b
  isEmpty := fun s => decide (s = ∅)
  isPolygon := fun s => (components s).length == 1
  length := fun s => ((2 * s.card + 2 * (components s).length : ℕ) : ℚ)
  area := fun s => ((1000 * s.card : ℕ) : ℚ)
  buffer := toyBuffer
  within := fun a b => decide (a ⊆ b)
  explode := components

/-! Auxiliary definitions used by the claim statements. -/

/-- The size classifier test followed from the wording of the spec, for
comparison with split_by_rule: a parcel is undersized when it fails the area
test (if configured) or the width test (if configured). -/
def spec_undersized (M : GeoModel G) (min_area min_width : Option ℚ)
    (r : Row G V) : Prop :=
  (∃ a, min_area = some a ∧ M.area r.geometry / 10000 < a) ∨
  (∃ w, min_width = some w ∧ M.isEmpty (M.buffer r.geometry (-(w / 2))) = true)

/-- The index accounting of the coverage invariant: every provenance list is
spread out, and an entity without provenance contributes its own index. -/
def coverage_indices (rows : List (Row G V)) : List ℕ :=
  rows.flatMap (fun r =>
    match r.merged with
    | some l => l
    | none => [r.idx])

/-- A valid input collection in the concrete model: unique index labels,
every geometry a single-part polygon (one component, hence nonempty), and
pairwise disjoint geometries. -/
def ValidInput (gdf : List (Row (Finset ℕ) V)) : Prop :=
  (gdf.map Row.idx).Nodup ∧
  (∀ r ∈ gdf, (components r.geometry).length = 1) ∧
  gdf.Pairwise (fun r s => r.geometry ∩ s.geometry = ∅)

/-- Shorthand for a concrete row of the discrete model without attributes. -/
def rowOf (i : ℕ) (g : List ℕ) : Row (Finset ℕ) ℕ :=
  ⟨i, g.toFinset, none, []⟩

/-! Lemmas about the candidate-to-target loop. -/

lemma length_filter_lt_of_mem {α : Type} {l : List α} {a : α} {p : α → Bool}
    (ha : a ∈ l) (hpa : p a = false) : (l.filter p).length < l.length := by
  induction l with
  | nil => cases ha
  | cons b t ih =>
    rw [List.filter_cons]
    rcases List.mem_cons.1 ha with rfl | hat
    · rw [if_neg (by simp [hpa])]
      exact Nat.lt_succ_of_le (List.length_filter_le _ _)
    · split
      · simpa using Nat.succ_lt_succ (ih hat)
      · exact Nat.lt_succ_of_lt (ih hat)

lemma merge_pass_ok_le (M : GeoModel G) (crit : Option MergingCriteria) :
    ∀ (snap cands targets : List (Row G V)) (m : Bool) {c t : List (Row G V)}
      {m2 : Bool}, merge_pass M crit snap (cands, targets, m) = .ok (c, t, m2) →
      c.length ≤ cands.length := by
  intro snap
  induction snap with
  | nil =>
    intro cands targets m c t m2 h
    simp only [merge_pass, Except.ok.injEq, Prod.mk.injEq] at h
    obtain ⟨rfl, rfl, rfl⟩ := h
    exact le_refl _
  | cons cand rest ih =>
    intro cands targets m c t m2 h
    simp only [merge_pass] at h
    split at h
    · exact absurd h (by simp)
    · exact ih _ _ _ h
    · exact le_trans (ih _ _ _ h) (List.length_filter_le _ _)

lemma merge_pass_true_mono (M : GeoModel G) (crit : Option MergingCriteria) :
    ∀ (snap cands targets : List (Row G V)) {c t : List (Row G V)} {m2 : Bool},
      merge_pass M crit snap (cands, targets, true) = .ok (c, t, m2) → m2 = true := by
  intro snap
  induction snap with
  | nil =>
    intro cands targets c t m2 h
    simp only [merge_pass, Except.ok.injEq, Prod.mk.injEq] at h
    exact h.2.2.symm
  | cons cand rest ih =>
    intro cands targets c t m2 h
    simp only [merge_pass] at h
    split at h
    · exact absurd h (by simp)
    · exact ih _ _ h
    · exact ih _ _ h

lemma merge_pass_false_id (M : GeoModel G) (crit : Option MergingCriteria) :
    ∀ (snap cands targets : List (Row G V)) {c t : List (Row G V)},
      merge_pass M crit snap (cands, targets, false) = .ok (c, t, false) →
      c = cands ∧ t = targets := by
  intro snap
  induction snap with
  | nil =>
    intro cands targets c t h
    simp only [merge_pass, Except.ok.injEq, Prod.mk.injEq] at h
    exact ⟨h.1.symm, h.2.1.symm⟩
  | cons cand rest ih =>
    intro cands targets c t h
    simp only [merge_pass] at h
    split at h
    · exact absurd h (by simp)
    · exact ih _ _ h
    · exact absurd (merge_pass_true_mono M crit rest _ _ h) (by simp)

lemma merge_pass_decrease (M : GeoModel G) (crit : Option MergingCriteria) :
    ∀ (snap cands targets : List (Row G V)) {c t : List (Row G V)},
      (∀ r ∈ snap, r.idx ∈ cands.map Row.idx) →
      merge_pass M crit snap (cands, targets, false) = .ok (c, t, true) →
      c.length < cands.length := by
  intro snap
  induction snap with
  | nil =>
    intro cands targets c t _ h
    simp only [merge_pass, Except.ok.injEq, Prod.mk.injEq] at h
    exact absurd h.2.2 (by simp)
  | cons cand rest ih =>
    intro cands targets c t hsub h
    simp only [merge_pass] at h
    split at h
    · exact absurd h (by simp)
    · exact ih _ _ (fun r hr => hsub r (List.mem_cons_of_mem _ hr)) h
    · have hle := merge_pass_ok_le M crit rest _ _ _ h
      have hidx : cand.idx ∈ cands.map Row.idx :=
        hsub cand (List.mem_cons_self _ _)
      obtain ⟨a, ha, hae⟩ := List.mem_map.1 hidx
      have hlt : (cands.filter (fun r => r.idx != cand.idx)).length < cands.length :=
        length_filter_lt_of_mem ha (by simp [hae])
      exact lt_of_le_of_lt hle hlt

lemma merge_loop_congr (M : GeoModel G) (crit : Option MergingCriteria) :
    ∀ (n : ℕ) (cands targets : List (Row G V)) (f g : ℕ), cands.length ≤ n →
      cands.length < f → cands.length < g →
      merge_loop M crit f cands targets = merge_loop M crit g cands targets := by
  intro n
  induction n with
  | zero =>
    intro cands targets f g hn hf hg
    have hc : cands = [] := List.length_eq_zero.1 (Nat.le_zero.1 hn)
    subst hc
    obtain ⟨f, rfl⟩ := Nat.exists_eq_succ_of_ne_zero (Nat.pos_iff_ne_zero.1 hf)
    obtain ⟨g, rfl⟩ := Nat.exists_eq_succ_of_ne_zero (Nat.pos_iff_ne_zero.1 hg)
    rfl
  | succ n ih =>
    intro cands targets f g hn hf hg
    obtain ⟨f, rfl⟩ := Nat.exists_eq_succ_of_ne_zero
      (Nat.pos_iff_ne_zero.1 (Nat.lt_of_le_of_lt (Nat.zero_le _) hf))
    obtain ⟨g, rfl⟩ := Nat.exists_eq_succ_of_ne_zero
      (Nat.pos_iff_ne_zero.1 (Nat.lt_of_le_of_lt (Nat.zero_le _) hg))
    rcases hp : merge_pass M crit cands (cands, targets, false) with e | ⟨c, t, m⟩
    · simp only [merge_loop, hp]
    · cases m with
      | false => simp [merge_loop, hp]
      | true =>
        have hlt := merge_pass_decrease M crit cands cands targets
          (fun r hr => List.mem_map_of_mem Row.idx hr) hp
        simp only [merge_loop, hp, if_pos]
        exact ih c t f g (by omega) (by omega) (by omega)

lemma merge_by_longest_intersection_error_ne (M : GeoModel G)
    (candidate : Row G V) (targets : List (Row G V)) {e : PyErr}
    (h : merge_by_longest_intersection M candidate targets = .error e) :
    e ≠ .valueErrorNoThreshold ∧ e ≠ .unboundLocal := by
  simp only [merge_by_longest_intersection] at h
  split at h
  · split at h <;> split at h <;>
      (simp only [Except.error.injEq] at h; subst h; decide)
  · simp only [Except.error.injEq] at h
    subst h
    decide

lemma pass_step_error_ne (M : GeoModel G) (crit : Option MergingCriteria)
    (candidate : Row G V) (targets : List (Row G V)) {e : PyErr}
    (h : pass_step M crit candidate targets = .error e) :
    e ≠ .valueErrorNoThreshold := by
  unfold pass_step at h
  split at h
  · exact absurd h (by simp)
  · exact (merge_by_longest_intersection_error_ne M candidate targets h).1
  · simp only [Except.error.injEq] at h
    subst h
    simp

lemma merge_pass_error_ne (M : GeoModel G) (crit : Option MergingCriteria) :
    ∀ (snap : List (Row G V)) (st : List (Row G V) × List (Row G V) × Bool)
      {e : PyErr}, merge_pass M crit snap st = .error e →
      e ≠ .valueErrorNoThreshold := by
  intro snap
  induction snap with
  | nil =>
    intro st e h
    exact absurd h (by simp [merge_pass])
  | cons cand rest ih =>
    intro st e h
    obtain ⟨cands, targets, m⟩ := st
    simp only [merge_pass] at h
    split at h
    · simp only [Except.error.injEq] at h
      subst h
      exact pass_step_error_ne M crit cand targets (by assumption)
    · exact ih _ h
    · exact ih _ h

lemma merge_loop_error_ne (M : GeoModel G) (crit : Option MergingCriteria) :
    ∀ (fuel : ℕ) (cands targets : List (Row G V)) {e : PyErr},
      merge_loop M crit fuel cands targets = .error e →
      e ≠ .valueErrorNoThreshold := by
  intro fuel
  induction fuel with
  | zero =>
    intro cands targets e h
    exact absurd h (by simp [merge_loop])
  | succ fuel ih =>
    intro cands targets e h
    simp only [merge_loop] at h
    split at h
    · simp only [Except.error.injEq] at h
      subst h
      exact merge_pass_error_ne M crit cands _ (by assumption)
    · split at h
      · exact ih _ _ h
      · exact absurd h (by simp)

lemma split_by_rule_isOk (M : GeoModel G) (gdf : List (Row G V))
    {ma mw : Option ℚ} (h : ma ≠ none ∨ mw ≠ none) :
    ∃ p, split_by_rule M gdf ma mw = .ok p := by
  cases ma <;> cases mw <;> simp [split_by_rule] at h ⊢

lemma merge_undersized_stage_error_ne (M : GeoModel G)
    (gdf gdf_lt gdf_ge : List (Row G V)) {ma mw : Option ℚ}
    (crit : Option MergingCriteria) {e : PyErr}
    (h : merge_undersized_stage M gdf gdf_lt gdf_ge ma mw crit = .error e) :
    e ≠ .valueErrorNoThreshold := by
  simp only [merge_undersized_stage] at h
  split at h
  · exact absurd h (by simp)
  · split at h
    · rename_i e2 heq
      simp only [Except.error.injEq] at h
      subst h
      -- split_by_rule errors only with both thresholds absent, and then with
      -- unboundLocal
      unfold split_by_rule at heq
      split at heq <;>
        first
          | (simp only [Except.error.injEq] at heq; subst heq; decide)
          | exact absurd heq (by simp)
    · split at h
      · rename_i e2 heq
        simp only [Except.error.injEq] at h
        subst h
        exact merge_loop_error_ne M crit _ _ _ heq
      · exact absurd h (by simp)

/-! Claim theorems C2, C7, C10 with their witnesses. -/

/-- C2: merge_geometries with both min_area and min_width set to None raises
the configuration ValueError for every input collection, before any geometry
is touched; with at least one threshold set this error is never raised. -/
theorem C2_configuration_validation (M : GeoModel G) :
    (∀ (gdf : List (Row G V)) (criteria : Option MergingCriteria),
      merge_geometries M gdf none none criteria = .error .valueErrorNoThreshold) ∧
    (∀ (gdf : List (Row G V)) (ma mw : Option ℚ) (criteria : Option MergingCriteria),
      ma ≠ none ∨ mw ≠ none →
      merge_geometries M gdf ma mw criteria ≠ .error .valueErrorNoThreshold) := by
  constructor
  · intro gdf criteria
    rfl
  · intro gdf ma mw criteria h heq
    simp only [merge_geometries] at heq
    rw [if_neg (by rintro ⟨rfl, rfl⟩; rcases h with h | h <;> exact h rfl)] at heq
    split at heq
    · rename_i e hsp
      simp only [Except.error.injEq] at heq
      subst heq
      unfold split_by_rule at hsp
      split at hsp <;> simp_all
    · rename_i lt ge hsp
      split at heq
      · rename_i e hst
        simp only [Except.error.injEq] at heq
        subst heq
        exact merge_undersized_stage_error_ne M gdf lt ge criteria hst rfl
      · rename_i upd hst
        split at heq
        · rename_i e hsp2
          simp only [Except.error.injEq] at heq
          subst heq
          unfold split_by_rule at hsp2
          split at hsp2 <;> simp_all
        · exact absurd heq (by simp)

/-- C2 witness: a concrete collection where the missing-threshold error is
raised exactly when both thresholds are absent. -/
theorem C2_witness :
    merge_geometries toyGeo [rowOf 0 [0]] none none (some .shortest_boundary) =
      .error .valueErrorNoThreshold ∧
    merge_geometries toyGeo [rowOf 0 [0]] (some (1/2)) none
      (some .shortest_boundary) ≠ .error .valueErrorNoThreshold :=
  ⟨(C2_configuration_validation toyGeo).1 [rowOf 0 [0]] (some .shortest_boundary),
   (C2_configuration_validation toyGeo).2 [rowOf 0 [0]] (some (1/2)) none
     (some .shortest_boundary) (Or.inl (by simp))⟩

/-- C7: the candidate-to-target loop terminates: a pass that merges at least
one candidate strictly decreases the candidate count, so candidates.length+1
passes always suffice (any larger fuel gives the same result), and a full
pass over the pass-start snapshot without any merge ends the loop, returning
the updated targets together with the unplaced candidates. -/
theorem C7_loop_termination (M : GeoModel G) (criteria : Option MergingCriteria)
    (candidates targets : List (Row G V)) :
    (∀ fuel, candidates.length < fuel →
      merge_loop M criteria fuel candidates targets =
        merge_geometries_by_criteria M candidates targets criteria) ∧
    (∀ c t, merge_pass M criteria candidates (candidates, targets, false) =
        .ok (c, t, true) → c.length < candidates.length) ∧
    (∀ c t, merge_pass M criteria candidates (candidates, targets, false) =
        .ok (c, t, false) →
      merge_geometries_by_criteria M candidates targets criteria = .ok (t, c)) := by
  refine ⟨fun fuel hf => ?_, fun c t h => ?_, fun c t h => ?_⟩
  · exact merge_loop_congr M criteria candidates.length candidates targets fuel
      (candidates.length + 1) (le_refl _) hf (Nat.lt_succ_self _)
  · exact merge_pass_decrease M criteria candidates candidates targets
      (fun r hr => List.mem_map_of_mem Row.idx hr) h
  · simp only [merge_geometries_by_criteria, merge_loop, h]
    rfl

/-- C7 witness: concrete merging and non-merging passes. -/
theorem C7_witness :
    merge_loop toyGeo (some .shortest_boundary) 7 [rowOf 1 [5]] [rowOf 2 [6,7]] =
      merge_geometries_by_criteria toyGeo [rowOf 1 [5]] [rowOf 2 [6,7]]
        (some .shortest_boundary) ∧
    ([] : List (Row (Finset ℕ) ℕ)).length < [rowOf 1 [5]].length ∧
    merge_geometries_by_criteria toyGeo [rowOf 0 [0]] [rowOf 2 [6,7]]
      (some .shortest_boundary) = .ok ([rowOf 2 [6,7]], [rowOf 0 [0]]) :=
  ⟨(C7_loop_termination toyGeo (some .shortest_boundary) [rowOf 1 [5]]
      [rowOf 2 [6,7]]).1 7 (by decide),
   (C7_loop_termination toyGeo (some .shortest_boundary) [rowOf 1 [5]]
      [rowOf 2 [6,7]]).2.1 [] [⟨2, {5,6,7}, none, []⟩] (by decide),
   (C7_loop_termination toyGeo (some .shortest_boundary) [rowOf 0 [0]]
      [rowOf 2 [6,7]]).2.2 [rowOf 0 [0]] [rowOf 2 [6,7]] (by decide)⟩

/-- C10: with a criteria value that is neither of the two supported ones the
loop fails with the unassigned-variable error as soon as there is at least
one candidate, and with an empty candidate collection it returns the targets
and candidates unchanged for every criteria value. -/
theorem C10_unsupported_criteria (M : GeoModel G) :
    (∀ (candidates targets : List (Row G V)), candidates ≠ [] →
      merge_geometries_by_criteria M candidates targets none =
        .error .unboundLocal) ∧
    (∀ (targets : List (Row G V)) (criteria : Option MergingCriteria),
      merge_geometries_by_criteria M ([] : List (Row G V)) targets criteria =
        .ok (targets, [])) := by
  constructor
  · intro candidates targets hne
    obtain ⟨c, rest, rfl⟩ := List.exists_cons_of_ne_nil hne
    rfl
  · intro targets criteria
    rfl

/-! Shortest-boundary matching: argmin characterisation of the pandas idxmin
fold, and the claims C3 and C4. -/

lemma argmin_foldl_mem (M : GeoModel G) :
    ∀ (l : List (ℕ × G)) (p : ℕ × G),
      l.foldl (fun acc q => if M.length q.2 < M.length acc.2 then q else acc) p
        ∈ p :: l := by
  intro l
  induction l with
  | nil => intro p; exact List.mem_singleton.2 rfl
  | cons q rest ih =>
    intro p
    simp only [List.foldl_cons]
    by_cases h : M.length q.2 < M.length p.2
    · rw [if_pos h]
      exact List.mem_cons_of_mem _ (ih q)
    · rw [if_neg h]
      rcases List.mem_cons.1 (ih p) with h1 | h1
      · rw [h1]
        exact List.mem_cons_self _ _
      · exact List.mem_cons_of_mem _ (List.mem_cons_of_mem _ h1)

lemma argmin_foldl_le (M : GeoModel G) :
    ∀ (l : List (ℕ × G)) (p q : ℕ × G), q ∈ p :: l →
      M.length ((l.foldl (fun acc q => if M.length q.2 < M.length acc.2 then q
        else acc) p).2) ≤ M.length q.2 := by
  intro l
  induction l with
  | nil =>
    intro p q hq
    rcases List.mem_cons.1 hq with rfl | h1
    · exact le_refl _
    · cases h1
  | cons r rest ih =>
    intro p q hq
    simp only [List.foldl_cons]
    by_cases h : M.length r.2 < M.length p.2
    · rw [if_pos h]
      rcases List.mem_cons.1 hq with rfl | h1
      · exact le_trans (ih r r (List.mem_cons_self _ _)) (le_of_lt h)
      · exact ih r q h1
    · rw [if_neg h]
      rcases List.mem_cons.1 hq with rfl | h1
      · exact ih _ _ (List.mem_cons_self _ _)
      · rcases List.mem_cons.1 h1 with rfl | h2
        · exact le_trans (ih _ _ (List.mem_cons_self _ _)) (le_of_not_lt h)
        · exact ih _ _ (List.mem_cons_of_mem _ h2)

/-- C4: merge_by_longest_intersection raises on every input: the Python not
operator applied to the pandas is_empty Series raises a ValueError unless the
Series has exactly one entry, and with one entry the resulting plain Bool
used as a lookup label produces a KeyError or, when a label 0 or 1 exists,
an AttributeError on the scalar lookup result; the function can never
return. -/
theorem C4_longest_intersection_always_raises (M : GeoModel G)
    (candidate : Row G V) (targets : List (Row G V)) :
    ∃ e, merge_by_longest_intersection M candidate targets = .error e := by
  simp only [merge_by_longest_intersection]
  split
  · split <;> split <;>
      first
        | exact ⟨.attributeErr, rfl⟩
        | exact ⟨.keyError, rfl⟩
  · exact ⟨.valueErrorSeriesTruth, rfl⟩

lemma mbsb_eq_none_iff (M : GeoModel G) (candidate : Row G V)
    (targets : List (Row G V)) :
    merge_by_shortest_boundary M candidate targets = none ↔
      ∀ t ∈ targets, M.isPolygon (M.union candidate.geometry t.geometry) = false := by
  simp only [merge_by_shortest_boundary]
  split
  · rename_i heq
    constructor
    · intro _ t ht
      have hall := List.filter_eq_nil_iff.1 heq (t.idx,
        M.union candidate.geometry t.geometry) (List.mem_map_of_mem _ ht)
      simpa using hall
    · intro _
      rfl
  · rename_i p ps heq
    constructor
    · intro h
      exact absurd h (by simp)
    · intro hall
      exfalso
      have hp : p ∈ List.filter (fun q => M.isPolygon q.2)
          (List.map (fun t => (t.idx, M.union candidate.geometry t.geometry))
            targets) := by
        rw [heq]
        exact List.mem_cons_self _ _
      have hmem := List.mem_filter.1 hp
      obtain ⟨t, ht, hte⟩ := List.mem_map.1 hmem.1
      have hpoly := hmem.2
      rw [← hte] at hpoly
      exact absurd (hall t ht) (by simp [hpoly])

lemma mbsb_eq_some (M : GeoModel G) (candidate : Row G V)
    (targets res : List (Row G V))
    (h : merge_by_shortest_boundary M candidate targets = some res) :
    ∃ t₀ ∈ targets,
      M.isPolygon (M.union candidate.geometry t₀.geometry) = true ∧
      (∀ t ∈ targets, M.isPolygon (M.union candidate.geometry t.geometry) = true →
        M.length (M.union candidate.geometry t₀.geometry) ≤
          M.length (M.union candidate.geometry t.geometry)) ∧
      res = targets.map (fun t => if t.idx = t₀.idx then
        { t with geometry := M.union candidate.geometry t₀.geometry } else t) := by
  simp only [merge_by_shortest_boundary] at h
  split at h
  · exact absurd h (by simp)
  · rename_i p ps heq
    simp only [Option.some.injEq] at h
    subst h
    have hmem : (ps.foldl (fun acc q =>
        if M.length q.2 < M.length acc.2 then q else acc) p) ∈
        List.filter (fun q => M.isPolygon q.2)
          (List.map (fun t => (t.idx, M.union candidate.geometry t.geometry))
            targets) := by
      rw [heq]
      exact argmin_foldl_mem M ps p
    have h2 := List.mem_filter.1 hmem
    obtain ⟨t₀, ht₀, hte⟩ := List.mem_map.1 h2.1
    refine ⟨t₀, ht₀, ?_, ?_, ?_⟩
    · have hpoly := h2.2
      rw [← hte] at hpoly
      exact hpoly
    · intro t ht hpoly
      have hq : (t.idx, M.union candidate.geometry t.geometry) ∈
          List.filter (fun q => M.isPolygon q.2)
            (List.map (fun t => (t.idx, M.union candidate.geometry t.geometry))
              targets) :=
        List.mem_filter.2 ⟨List.mem_map_of_mem _ ht, hpoly⟩
      rw [heq] at hq
      have hle := argmin_foldl_le M ps p _ hq
      rw [← hte] at hle
      exact hle
    · rw [← hte]

/-- C3: under SHORTEST_BOUNDARY, the candidate is unioned with every target,
unions that are not single-part polygons are discarded, None is returned
when no union survives, and otherwise exactly the target whose surviving
union has minimal boundary length has its geometry replaced by that union,
all other target records being unchanged. -/
theorem C3_shortest_boundary_matching (M : GeoModel G) (candidate : Row G V)
    (targets : List (Row G V)) (hne : targets ≠ [])
    (hnd : (targets.map Row.idx).Nodup) :
    (merge_by_shortest_boundary M candidate targets = none ↔
      ∀ t ∈ targets, M.isPolygon (M.union candidate.geometry t.geometry) = false) ∧
    (∀ res, merge_by_shortest_boundary M candidate targets = some res →
      ∃ t₀ ∈ targets,
        M.isPolygon (M.union candidate.geometry t₀.geometry) = true ∧
        (∀ t ∈ targets, M.isPolygon (M.union candidate.geometry t.geometry) = true →
          M.length (M.union candidate.geometry t₀.geometry) ≤
            M.length (M.union candidate.geometry t.geometry)) ∧
        res = targets.map (fun t => if t.idx = t₀.idx then
          { t with geometry := M.union candidate.geometry t₀.geometry } else t) ∧
        ∀ t ∈ targets, t.idx ≠ t₀.idx → t ∈ res) :=
  ⟨mbsb_eq_none_iff M candidate targets,
   fun res h => by
     obtain ⟨t₀, ht₀, hpoly, hmin, hres⟩ := mbsb_eq_some M candidate targets res h
     refine ⟨t₀, ht₀, hpoly, hmin, hres, fun t ht htne => ?_⟩
     rw [hres]
     simpa [htne] using List.mem_map_of_mem
       (fun t => if t.idx = t₀.idx then
         { t with geometry := M.union candidate.geometry t₀.geometry } else t) ht⟩

/-- C3 witness: a candidate disjoint from the single target yields a
multi-part union everywhere, so the merge returns None. -/
theorem C3_witness :
    merge_by_shortest_boundary toyGeo (rowOf 9 [3]) [rowOf 1 [10]] = none :=
  (C3_shortest_boundary_matching toyGeo (rowOf 9 [3]) [rowOf 1 [10]]
    (by simp) (by decide)).1.mpr (by decide)

/-! The discrete geometry model: sorted cell lists, runs and components. -/

lemma mem_sortedCells {s : Finset ℕ} {c : ℕ} : c ∈ sortedCells s ↔ c ∈ s := by
  unfold sortedCells
  simp only [List.mem_filter, List.mem_range, decide_eq_true_eq]
  constructor
  · exact fun h => h.2
  · intro h
    have hle : id c ≤ s.sup id := Finset.le_sup h
    exact ⟨Nat.lt_succ_of_le hle, h⟩

lemma sortedCells_sorted (s : Finset ℕ) : (sortedCells s).Sorted (· < ·) :=
  (List.sorted_lt_range _).filter _

lemma sortedCells_nodup (s : Finset ℕ) : (sortedCells s).Nodup :=
  (List.nodup_range _).filter _

lemma cellRuns_flatten : ∀ l : List ℕ, (cellRuns l).flatten = l := by
  intro l
  induction l with
  | nil => rfl
  | cons a rest ih =>
    simp only [cellRuns]
    split
    · rename_i h
      rw [h] at ih
      simp only [List.flatten_nil] at ih
      simp [← ih]
    · rename_i rs h
      rw [h] at ih
      simp only [List.flatten_cons, List.nil_append] at ih
      simp [List.flatten_cons, ih]
    · rename_i b rn rs h
      rw [h] at ih
      simp only [List.flatten_cons] at ih
      split <;> simp only [List.flatten_cons, List.cons_append, List.nil_append] <;>
        simpa using ih

lemma cellRuns_ne_nil : ∀ l : List ℕ, ∀ r ∈ cellRuns l, r ≠ [] := by
  intro l
  induction l with
  | nil => intro r hr; cases hr
  | cons a rest ih =>
    intro r hr
    simp only [cellRuns] at hr
    split at hr
    · rename_i h
      rw [List.mem_singleton] at hr
      subst hr
      simp
    · rename_i rs h
      exact absurd (ih [] (by rw [h]; exact List.mem_cons_self _ _)) (by simp)
    · rename_i b rn rs h
      split at hr
      · rcases List.mem_cons.1 hr with rfl | hr2
        · simp
        · exact ih r (by rw [h]; exact List.mem_cons_of_mem _ hr2)
      · rcases List.mem_cons.1 hr with rfl | hr2
        · simp
        · exact ih r (by rw [h]; exact hr2)

lemma cellRuns_chain : ∀ l : List ℕ, ∀ r ∈ cellRuns l,
    r.Chain' (fun x y => y = x + 1) := by
  intro l
  induction l with
  | nil => intro r hr; cases hr
  | cons a rest ih =>
    intro r hr
    simp only [cellRuns] at hr
    split at hr
    · rename_i h
      rw [List.mem_singleton] at hr
      subst hr
      exact List.chain'_singleton _
    · rename_i rs h
      exact absurd (cellRuns_ne_nil rest [] (by rw [h]; exact List.mem_cons_self _ _))
        (by simp)
    · rename_i b rn rs h
      split at hr
      · rename_i hb
        rcases List.mem_cons.1 hr with rfl | hr2
        · exact List.chain'_cons.2 ⟨hb.symm ▸ rfl,
            ih (b :: rn) (by rw [h]; exact List.mem_cons_self _ _)⟩
        · exact ih r (by rw [h]; exact List.mem_cons_of_mem _ hr2)
      · rcases List.mem_cons.1 hr with rfl | hr2
        · exact List.chain'_singleton _
        · exact ih r (by rw [h]; exact hr2)

lemma mem_of_mem_cellRuns {l r : List ℕ} {x : ℕ} (hr : r ∈ cellRuns l)
    (hx : x ∈ r) : x ∈ l := by
  rw [← cellRuns_flatten l]
  exact List.mem_flatten.2 ⟨r, hr, hx⟩

lemma cellRuns_closure : ∀ l : List ℕ, l.Sorted (· < ·) →
    ∀ r ∈ cellRuns l, ∀ x ∈ r, ∀ y ∈ l, y = x + 1 → y ∈ r := by
  intro l
  induction l with
  | nil => intro _ r hr; cases hr
  | cons a rest ih =>
    intro hs r hr x hx y hy hxy
    have hs1 : ∀ z ∈ rest, a < z := List.rel_of_sorted_cons hs
    have hs2 : rest.Sorted (· < ·) := hs.of_cons
    simp only [cellRuns] at hr
    split at hr
    · rename_i h
      have hrest : rest = [] := by
        have := cellRuns_flatten rest
        rw [h] at this
        exact this.symm
      subst hrest
      rw [List.mem_singleton] at hr
      subst hr
      rw [List.mem_singleton] at hx
      subst hx
      rcases List.mem_cons.1 hy with rfl | hy2
      · omega
      · cases hy2
    · rename_i rs h
      exact absurd (cellRuns_ne_nil rest [] (by rw [h]; exact List.mem_cons_self _ _))
        (by simp)
    · rename_i b rn rs h
      have hrest : rest = b :: (rn ++ rs.flatten) := by
        have := cellRuns_flatten rest
        rw [h] at this
        simpa using this.symm
      split at hr
      · rename_i hb
        rcases List.mem_cons.1 hr with rfl | hr2
        · -- r is the extended first run a :: b :: rn
          rcases List.mem_cons.1 hy with rfl | hy2
          · -- y = a is impossible: x would be smaller than every element
            exfalso
            rcases List.mem_cons.1 hx with rfl | hx2
            · omega
            · have hxrest : x ∈ rest := by
                rw [hrest]
                rcases List.mem_cons.1 hx2 with rfl | hx3
                · exact List.mem_cons_self _ _
                · exact List.mem_cons_of_mem _ (List.mem_append_left _ hx3)
              have := hs1 x hxrest
              omega
          · rcases List.mem_cons.1 hx with rfl | hx2
            · -- x = a, so y = a + 1 = b
              have : y = b := by omega
              subst this
              exact List.mem_cons_of_mem _ (List.mem_cons_self _ _)
            · have := ih hs2 (b :: rn) (by rw [h]; exact List.mem_cons_self _ _)
                x hx2 y hy2 hxy
              exact List.mem_cons_of_mem _ this
        · rcases List.mem_cons.1 hy with rfl | hy2
          · exfalso
            have hxrest : x ∈ rest :=
              mem_of_mem_cellRuns (l := rest) (by rw [h]; exact List.mem_cons_of_mem _ hr2) hx
            have := hs1 x hxrest
            omega
          · exact ih hs2 r (by rw [h]; exact List.mem_cons_of_mem _ hr2) x hx y hy2 hxy
      · rename_i hb
        have hab : a < b := hs1 b (by rw [hrest]; exact List.mem_cons_self _ _)
        have hab2 : a + 1 < b := by omega
        rcases List.mem_cons.1 hr with rfl | hr2
        · -- r = [a]
          rw [List.mem_singleton] at hx
          subst hx
          rcases List.mem_cons.1 hy with rfl | hy2
          · omega
          · exfalso
            -- y = a + 1 lies strictly between a and b, but everything in rest
            -- is at least b
            rw [hrest] at hy2
            rcases List.mem_cons.1 hy2 with rfl | hy3
            · omega
            · have : b < y := List.rel_of_sorted_cons (hrest ▸ hs2) y hy3
              omega
        · rcases List.mem_cons.1 hy with rfl | hy2
          · exfalso
            have hxrest : x ∈ rest :=
              mem_of_mem_cellRuns (l := rest) (by rw [h]; exact hr2) hx
            have := hs1 x hxrest
            omega
          · exact ih hs2 r (by rw [h]; exact hr2) x hx y hy2 hxy

lemma mem_components {s C : Finset ℕ} :
    C ∈ components s ↔ ∃ r ∈ cellRuns (sortedCells s), r.toFinset = C := by
  simp [components, List.mem_map]

lemma components_subset {s C : Finset ℕ} (hC : C ∈ components s) : C ⊆ s := by
  obtain ⟨r, hr, rfl⟩ := mem_components.1 hC
  intro x hx
  rw [List.mem_toFinset] at hx
  exact mem_sortedCells.1 (mem_of_mem_cellRuns hr hx)

lemma components_nonempty {s C : Finset ℕ} (hC : C ∈ components s) :
    C.Nonempty := by
  obtain ⟨r, hr, rfl⟩ := mem_components.1 hC
  have hne := cellRuns_ne_nil _ r hr
  rcases r with _ | ⟨c, cs⟩
  · simp at hne
  · exact ⟨c, by simp⟩

lemma components_cover {s : Finset ℕ} {x : ℕ} (hx : x ∈ s) :
    ∃ C ∈ components s, x ∈ C := by
  have hx2 : x ∈ (cellRuns (sortedCells s)).flatten := by
    rw [cellRuns_flatten]
    exact mem_sortedCells.2 hx
  obtain ⟨r, hr, hxr⟩ := List.mem_flatten.1 hx2
  exact ⟨r.toFinset, mem_components.2 ⟨r, hr, rfl⟩, List.mem_toFinset.2 hxr⟩

lemma cellRuns_pairwise_disjoint (l : List ℕ) (hnd : l.Nodup) :
    (cellRuns l).Pairwise List.Disjoint := by
  have h : ((cellRuns l).flatten).Nodup := by
    rw [cellRuns_flatten]
    exact hnd
  exact (List.nodup_flatten.1 h).2

lemma components_disjoint (s : Finset ℕ) :
    (components s).Pairwise (fun A B => ∀ x ∈ A, x ∉ B) := by
  unfold components
  refine List.Pairwise.map _ ?_
    (cellRuns_pairwise_disjoint _ (sortedCells_nodup s))
  intro r₁ r₂ hd x hx1 hx2
  rw [List.mem_toFinset] at hx1 hx2
  exact hd hx1 hx2

lemma run_walk (L : List ℕ) (hL : L.Sorted (· < ·)) {R : List ℕ}
    (hR : R ∈ cellRuns L) :
    ∀ (c : ℕ) (cs : List ℕ), (c :: cs).Chain' (fun x y => y = x + 1) →
      (∀ x ∈ c :: cs, x ∈ L) → c ∈ R → ∀ x ∈ c :: cs, x ∈ R := by
  intro c cs
  induction cs generalizing c with
  | nil =>
    intro _ _ hc x hx
    rw [List.mem_singleton] at hx
    exact hx ▸ hc
  | cons d ds ih =>
    intro hch hmem hc x hx
    have hd : d = c + 1 := (List.chain'_cons.1 hch).1
    have hdR : d ∈ R := cellRuns_closure L hL R hR c hc d
      (hmem d (List.mem_cons_of_mem _ (List.mem_cons_self _ _))) hd
    rcases List.mem_cons.1 hx with rfl | hx2
    · exact hc
    · exact ih d (List.chain'_cons.1 hch).2
        (fun z hz => hmem z (List.mem_cons_of_mem _ hz)) hdR x hx2

lemma connected_sortedCells {g : Finset ℕ} (h : (components g).length = 1) :
    cellRuns (sortedCells g) = [sortedCells g] := by
  unfold components at h
  rw [List.length_map] at h
  obtain ⟨r, hr⟩ := List.length_eq_one.1 h
  have hfl := cellRuns_flatten (sortedCells g)
  rw [hr] at hfl ⊢
  simp only [List.flatten_cons, List.flatten_nil, List.append_nil] at hfl
  rw [hfl]

lemma connected_subset_component {g s : Finset ℕ}
    (hconn : (components g).length = 1) (hsub : g ⊆ s) :
    ∃ C ∈ components s, g ⊆ C := by
  have hruns := connected_sortedCells hconn
  have hmemruns : sortedCells g ∈ cellRuns (sortedCells g) := by
    rw [hruns]
    exact List.mem_cons_self _ _
  have hchain := cellRuns_chain _ _ hmemruns
  have hne := cellRuns_ne_nil _ _ hmemruns
  rcases hsc : sortedCells g with _ | ⟨c, cs⟩
  · exact absurd hsc hne
  · have hcg : c ∈ g := mem_sortedCells.1 (by rw [hsc]; exact List.mem_cons_self _ _)
    have hcL : c ∈ sortedCells s := mem_sortedCells.2 (hsub hcg)
    obtain ⟨R, hR, hcR⟩ := List.mem_flatten.1
      (by rw [cellRuns_flatten]; exact hcL)
    refine ⟨R.toFinset, mem_components.2 ⟨R, hR, rfl⟩, ?_⟩
    intro x hxg
    have hxsorted : x ∈ c :: cs := by
      rw [← hsc]
      exact mem_sortedCells.2 hxg
    have hall : ∀ z ∈ c :: cs, z ∈ sortedCells s := by
      intro z hz
      have hzg : z ∈ g := mem_sortedCells.1 (by rw [hsc]; exact hz)
      exact mem_sortedCells.2 (hsub hzg)
    have hwalk := run_walk (sortedCells s) (sortedCells_sorted s) hR c cs
      (hsc ▸ hchain) hall hcR x hxsorted
    exact List.mem_toFinset.2 hwalk

lemma mem_foldl_union (l : List (Finset ℕ)) (init : Finset ℕ) (x : ℕ) :
    x ∈ l.foldl (fun a b => a ∪ b) init ↔ x ∈ init ∨ ∃ t ∈ l, x ∈ t := by
  induction l generalizing init with
  | nil => simp
  | cons s rest ih =>
    rw [List.foldl_cons, ih]
    simp only [Finset.mem_union, List.mem_cons]
    constructor
    · rintro ((h | h) | ⟨t, ht, hxt⟩)
      · exact Or.inl h
      · exact Or.inr ⟨s, Or.inl rfl, h⟩
      · exact Or.inr ⟨t, Or.inr ht, hxt⟩
    · rintro (h | ⟨t, (rfl | ht), hxt⟩)
      · exact Or.inl (Or.inl h)
      · exact Or.inl (Or.inr hxt)
      · exact Or.inr ⟨t, ht, hxt⟩

lemma eq_singleton_of_forall_mem {l : List ℕ} {c : ℕ} (hnd : l.Nodup)
    (hmem : ∀ x, x ∈ l ↔ x = c) : l = [c] := by
  cases l with
  | nil => exact absurd ((hmem c).2 rfl) (by simp)
  | cons x rest =>
    have hx : x = c := (hmem x).1 (List.mem_cons_self _ _)
    subst hx
    have hrest : rest = [] := by
      rw [List.eq_nil_iff_forall_not_mem]
      intro y hy
      have hyx : y = x := (hmem y).1 (List.mem_cons_of_mem _ hy)
      subst hyx
      exact (List.nodup_cons.1 hnd).1 hy
    rw [hrest]

lemma sortedCells_singleton (c : ℕ) : sortedCells {c} = [c] :=
  eq_singleton_of_forall_mem (sortedCells_nodup _)
    (fun x => by rw [mem_sortedCells, Finset.mem_singleton])

lemma components_singleton (c : ℕ) : components {c} = [{c}] := by
  unfold components
  rw [sortedCells_singleton]
  simp [cellRuns]

lemma keep_equal_values_singleton (a : Option V) : keep_equal_values [a] = a := by
  cases a <;> simp [keep_equal_values]

lemma map_getD_range (l : List (Option V)) :
    (List.range l.length).map (fun j => l[j]?.getD none) = l := by
  induction l with
  | nil => rfl
  | cons a t ih =>
    rw [List.length_cons, List.range_succ_eq_map, List.map_cons, List.map_map]
    simp only [List.getElem?_cons_zero, Option.getD_some, Function.comp_def,
      List.getElem?_cons_succ]
    rw [ih]

lemma toy_area_singleton (c : ℕ) : toyGeo.area {c} = 1000 := by
  show ((1000 * ({c} : Finset ℕ).card : ℕ) : ℚ) = 1000
  rw [Finset.card_singleton]
  norm_num

lemma mgbc_single_no_targets (M : GeoModel G) (cand : Row G V) :
    merge_geometries_by_criteria M [cand] [] (some .shortest_boundary) =
      .ok ([], [cand]) := rfl

/-! The size classifier: characterisation of split_by_rule (claim C8). -/

lemma idx_inj {gdf : List (Row G V)} (hnd : (gdf.map Row.idx).Nodup)
    {r s : Row G V} (hr : r ∈ gdf) (hs : s ∈ gdf) (he : r.idx = s.idx) : r = s :=
  List.inj_on_of_nodup_map hnd hr hs he

lemma find?_idx {gdf : List (Row G V)} (hnd : (gdf.map Row.idx).Nodup)
    {r : Row G V} (hr : r ∈ gdf) :
    gdf.find? (fun s => s.idx == r.idx) = some r := by
  induction gdf with
  | nil => cases hr
  | cons a rest ih =>
    by_cases ha : a.idx = r.idx
    · have hae : a = r := idx_inj hnd (List.mem_cons_self _ _) hr ha
      rw [List.find?_cons_of_pos _ (by simp [ha])]
      exact congrArg some hae
    · have hr2 : r ∈ rest := by
        rcases List.mem_cons.1 hr with rfl | h2
        · exact absurd rfl ha
        · exact h2
      rw [List.find?_cons_of_neg _ (by simp [ha])]
      exact ih (List.Nodup.of_cons hnd) hr2

lemma spec_undersized_area {M : GeoModel G} {a : ℚ} {r : Row G V} :
    spec_undersized M (some a) none r ↔ M.area r.geometry / 10000 < a := by
  simp [spec_undersized]

lemma spec_undersized_width {M : GeoModel G} {w : ℚ} {r : Row G V} :
    spec_undersized M none (some w) r ↔
      M.isEmpty (M.buffer r.geometry (-(w / 2))) = true := by
  simp [spec_undersized]

lemma spec_undersized_both {M : GeoModel G} {a w : ℚ} {r : Row G V} :
    spec_undersized M (some a) (some w) r ↔
      M.area r.geometry / 10000 < a ∨
      M.isEmpty (M.buffer r.geometry (-(w / 2))) = true := by
  simp [spec_undersized]

lemma split_by_rule_all_adequate (M : GeoModel G) (gdf : List (Row G V))
    {ma mw : Option ℚ} (h : ma ≠ none ∨ mw ≠ none)
    (hall : ∀ r ∈ gdf, ¬ spec_undersized M ma mw r) :
    split_by_rule M gdf ma mw = .ok ([], gdf) := by
  match ma, mw with
  | none, none => simp at h
  | some a, none =>
    show Except.ok (split_by_min_area M gdf a) = _
    unfold split_by_min_area
    rw [List.filter_eq_nil_iff.2, List.filter_eq_self.2]
    · intro r hr
      have := hall r hr
      rw [spec_undersized_area] at this
      simpa using this
    · intro r hr
      have := hall r hr
      rw [spec_undersized_area] at this
      simpa using this
  | none, some w =>
    show Except.ok (split_by_min_width M gdf w) = _
    unfold split_by_min_width
    rw [List.filter_eq_nil_iff.2, List.filter_eq_self.2]
    · intro r hr
      have := hall r hr
      rw [spec_undersized_width] at this
      simpa using this
    · intro r hr
      have := hall r hr
      rw [spec_undersized_width] at this
      simpa using this
  | some a, some w =>
    have harea : (split_by_min_area M gdf a).1 = [] := by
      unfold split_by_min_area
      rw [List.filter_eq_nil_iff.2]
      intro r hr
      have := hall r hr
      rw [spec_undersized_both] at this
      simpa using fun hl => this (Or.inl hl)
    have hwidth : (split_by_min_width M gdf w).1 = [] := by
      unfold split_by_min_width
      rw [List.filter_eq_nil_iff.2]
      intro r hr
      have := hall r hr
      rw [spec_undersized_both] at this
      simpa using fun hl => this (Or.inr hl)
    simp [split_by_rule, harea, hwidth]

lemma mem_filterMap_find_of_mem {gdf : List (Row G V)} {L : List ℕ} {r : Row G V}
    (hnd : (gdf.map Row.idx).Nodup) (hr : r ∈ gdf) :
    r ∈ L.filterMap (fun i => gdf.find? (fun s => s.idx == i)) ↔ r.idx ∈ L := by
  constructor
  · intro h
    rcases List.mem_filterMap.1 h with ⟨i, hi, hf⟩
    have hp := List.find?_some hf
    simp only [beq_iff_eq] at hp
    exact hp ▸ hi
  · intro h
    exact List.mem_filterMap.2 ⟨r.idx, h, find?_idx hnd hr⟩

lemma map_idx_filterMap_find {gdf : List (Row G V)} {L : List ℕ}
    (hcov : ∀ i ∈ L, ∃ s ∈ gdf, s.idx = i) :
    (L.filterMap (fun i => gdf.find? (fun s => s.idx == i))).map Row.idx = L := by
  induction L with
  | nil => rfl
  | cons i rest ih =>
    rcases hcov i (List.mem_cons_self _ _) with ⟨s, hs, hsi⟩
    have hsome : (gdf.find? (fun t => t.idx == i)).isSome :=
      List.find?_isSome.2 ⟨s, hs, by simp [hsi]⟩
    rcases Option.isSome_iff_exists.1 hsome with ⟨t, ht⟩
    have hti := List.find?_some ht
    simp only [beq_iff_eq] at hti
    simp only [List.filterMap_cons, ht, List.map_cons, hti]
    exact congrArg (i :: ·) (ih (fun j hj => hcov j (List.mem_cons_of_mem _ hj)))

/-- C8: split_by_rule partitions the collection into a disjoint pair
(undersized, adequate) whose union is the input; a row is undersized exactly
when it fails the area test or the width test, whichever thresholds are
configured, and adequate is the complement. -/
theorem C8_size_classifier (M : GeoModel G) (gdf : List (Row G V))
    (ma mw : Option ℚ) (h : ¬(ma = none ∧ mw = none))
    (hnd : (gdf.map Row.idx).Nodup) :
    ∃ lt ge, split_by_rule M gdf ma mw = .ok (lt, ge) ∧
      (lt ++ ge).Perm gdf ∧
      (∀ r ∈ gdf, (r ∈ lt ↔ spec_undersized M ma mw r) ∧
        (r ∈ ge ↔ ¬ spec_undersized M ma mw r)) ∧
      lt.Disjoint ge := by
  match ma, mw with
  | none, none => exact absurd ⟨rfl, rfl⟩ h
  | some a, none =>
    refine ⟨_, _, rfl, ?_, ?_, ?_⟩
    · have hq : gdf.filter (fun r => decide (M.area r.geometry / 10000 ≥ a)) =
          gdf.filter (fun r => ! decide (M.area r.geometry / 10000 < a)) :=
        List.filter_congr (fun r _ => by
          simp only [ge_iff_le, ← not_lt, decide_not])
      show (gdf.filter (fun r => decide (M.area r.geometry / 10000 < a)) ++
        gdf.filter (fun r => decide (M.area r.geometry / 10000 ≥ a))).Perm gdf
      rw [hq]
      exact List.filter_append_perm _ gdf
    · intro r hr
      constructor
      · show r ∈ (split_by_min_area M gdf a).1 ↔ _
        rw [spec_undersized_area]
        simp [split_by_min_area, hr]
      · show r ∈ (split_by_min_area M gdf a).2 ↔ _
        rw [spec_undersized_area]
        simp [split_by_min_area, hr]
    · intro r hlt hge
      have h1 : decide (M.area r.geometry / 10000 < a) = true :=
        (List.mem_filter.1 hlt).2
      have h2 : decide (M.area r.geometry / 10000 ≥ a) = true :=
        (List.mem_filter.1 hge).2
      simp at h1 h2
      exact absurd h1 (not_lt.2 h2)
  | none, some w =>
    refine ⟨_, _, rfl, ?_, ?_, ?_⟩
    · exact List.filter_append_perm _ gdf
    · intro r hr
      constructor
      · show r ∈ (split_by_min_width M gdf w).1 ↔ _
        rw [spec_undersized_width]
        simp [split_by_min_width, hr]
      · show r ∈ (split_by_min_width M gdf w).2 ↔ _
        rw [spec_undersized_width]
        simp [split_by_min_width, hr]
    · intro r hlt hge
      have h1 := (List.mem_filter.1 hlt).2
      have h2 := (List.mem_filter.1 hge).2
      simp at h1 h2
      exact absurd h1 (by simp [h2])
  | some a, some w =>
    have hgnd : gdf.Nodup := hnd.of_map Row.idx
    set lt_area := (split_by_min_area M gdf a).1 with hlta
    set lt_width := (split_by_min_width M gdf w).1 with hltw
    set ltIdx : List ℕ := List.insertionSort (· ≤ ·)
      ((lt_area.map Row.idx) ++ (lt_width.map Row.idx)).dedup with hlti
    have hmemIdx : ∀ i, i ∈ ltIdx ↔
        i ∈ lt_area.map Row.idx ∨ i ∈ lt_width.map Row.idx := by
      intro i
      rw [hlti, (List.perm_insertionSort _ _).mem_iff, List.mem_dedup,
        List.mem_append]
    have hcov : ∀ i ∈ ltIdx, ∃ s ∈ gdf, s.idx = i := by
      intro i hi
      rcases (hmemIdx i).1 hi with hA | hW
      · rcases List.mem_map.1 hA with ⟨s, hs, hsi⟩
        exact ⟨s, (List.mem_filter.1 hs).1, hsi⟩
      · rcases List.mem_map.1 hW with ⟨s, hs, hsi⟩
        exact ⟨s, (List.mem_filter.1 hs).1, hsi⟩
    have hIdxNd : ltIdx.Nodup :=
      (List.perm_insertionSort _ _).nodup_iff.2 (List.nodup_dedup _)
    set lt := ltIdx.filterMap (fun i => gdf.find? (fun r => r.idx == i)) with hlt
    set ge := gdf.filter (fun r => ! ltIdx.contains r.idx) with hge
    have hok : split_by_rule M gdf (some a) (some w) = .ok (lt, ge) := rfl
    have hmap : lt.map Row.idx = ltIdx := map_idx_filterMap_find hcov
    have hltNd : lt.Nodup := (hmap ▸ hIdxNd).of_map Row.idx
    have hgeNd : ge.Nodup := hgnd.filter _
    have hltmem : ∀ r ∈ gdf, (r ∈ lt ↔ r.idx ∈ ltIdx) := by
      intro r hr
      exact mem_filterMap_find_of_mem hnd hr
    have hspec : ∀ r ∈ gdf,
        (r.idx ∈ ltIdx ↔ spec_undersized M (some a) (some w) r) := by
      intro r hr
      rw [hmemIdx, spec_undersized_both]
      constructor
      · rintro (hA | hW)
        · rcases List.mem_map.1 hA with ⟨s, hs, hsi⟩
          have hsg := (List.mem_filter.1 hs).1
          have := idx_inj hnd hsg hr hsi
          subst this
          exact Or.inl (by simpa using (List.mem_filter.1 hs).2)
        · rcases List.mem_map.1 hW with ⟨s, hs, hsi⟩
          have hsg := (List.mem_filter.1 hs).1
          have := idx_inj hnd hsg hr hsi
          subst this
          exact Or.inr (by simpa using (List.mem_filter.1 hs).2)
      · rintro (hA | hW)
        · exact Or.inl (List.mem_map_of_mem _
            (List.mem_filter.2 ⟨hr, by simpa using hA⟩))
        · exact Or.inr (List.mem_map_of_mem _
            (List.mem_filter.2 ⟨hr, by simpa using hW⟩))
    have hgemem : ∀ r ∈ gdf, (r ∈ ge ↔ r.idx ∉ ltIdx) := by
      intro r hr
      rw [hge, List.mem_filter]
      simp [hr]
    have hdisj : lt.Disjoint ge := by
      intro r hrlt hrge
      have hrg : r ∈ gdf := (List.mem_filter.1 hrge).1
      exact ((hgemem r hrg).1 hrge) ((hltmem r hrg).1 hrlt)
    refine ⟨lt, ge, hok, ?_, ?_, hdisj⟩
    · rw [List.perm_ext_iff_of_nodup
        (List.nodup_append.2 ⟨hltNd, hgeNd, hdisj⟩) hgnd]
      intro r
      rw [List.mem_append]
      constructor
      · rintro (hrlt | hrge)
        · rcases List.mem_filterMap.1 hrlt with ⟨i, _, hf⟩
          exact List.mem_of_find?_eq_some hf
        · exact (List.mem_filter.1 hrge).1
      · intro hr
        by_cases hu : r.idx ∈ ltIdx
        · exact Or.inl ((hltmem r hr).2 hu)
        · exact Or.inr ((hgemem r hr).2 hu)
    · intro r hr
      refine ⟨(hltmem r hr).trans (hspec r hr), ?_⟩
      rw [hgemem r hr]
      exact not_congr (hspec r hr)

/-- Witness for C8 at a concrete two-row frame with both thresholds set:
the first row (one cell, 0.1 ha) is undersized by area, the second
(five cells) is adequate. -/
theorem C8_witness :
    (¬((some (3/20 : ℚ) : Option ℚ) = none ∧ (none : Option ℚ) = none)) ∧
    ∃ lt ge, split_by_rule toyGeo
        ([rowOf 0 [0], rowOf 1 [5, 6, 7, 8, 9]] : List (Row (Finset ℕ) ℕ))
        (some (3/20)) none = .ok (lt, ge) ∧
      (lt ++ ge).Perm [rowOf 0 [0], rowOf 1 [5, 6, 7, 8, 9]] ∧
      (∀ r ∈ ([rowOf 0 [0], rowOf 1 [5, 6, 7, 8, 9]] : List (Row (Finset ℕ) ℕ)),
        (r ∈ lt ↔ spec_undersized toyGeo (some (3/20)) none r) ∧
        (r ∈ ge ↔ ¬ spec_undersized toyGeo (some (3/20)) none r)) ∧
      lt.Disjoint ge :=
  ⟨by simp, C8_size_classifier toyGeo _ _ _ (by simp) (by decide)⟩

/-! Surrogate index allocation: characterisation of update_index over the
consolidated frame (claim C5). -/

lemma update_index_go_getElem? :
    ∀ (l : List (Row G V)) (m p : ℕ),
      ((update_index_go l m).1)[p]? = (l[p]?).map (fun r =>
        if r.merged = none then r
        else { r with idx := m + 1 + (l.take p).countP (fun s => s.merged != none) }) := by
  intro l
  induction l with
  | nil => intro m p; simp [update_index_go]
  | cons r rest ih =>
    intro m p
    cases p with
    | zero =>
      cases hr : r.merged <;> simp [update_index_go, hr]
    | succ p =>
      cases hr : r.merged with
      | none =>
        simp only [update_index_go, hr]
        rw [List.getElem?_cons_succ, ih]
        simp [List.take_succ_cons, List.countP_cons, hr]
      | some L =>
        simp only [update_index_go, hr]
        rw [List.getElem?_cons_succ, ih]
        rcases hq : rest[p]? with _ | q
        · rw [List.getElem?_cons_succ, hq]
          rfl
        · rw [List.getElem?_cons_succ, hq]
          have hcnt : ((r :: rest).take (p + 1)).countP (fun s => s.merged != none) =
              (rest.take p).countP (fun s => s.merged != none) + 1 := by
            simp [List.take_succ_cons, List.countP_cons, hr]
          rw [hcnt]
          simp only [Option.map_some', Option.some.injEq]
          split
          · rfl
          · simp only [Row.mk.injEq]
            exact ⟨by omega, trivial, trivial, trivial⟩

lemma merge_to_single_parts_getElem? (M : GeoModel G) (lt : List (Row G V)) (p : ℕ) :
    (merge_to_single_parts M lt)[p]? =
      ((M.explode (M.unionAll (lt.map Row.geometry)))[p]?).map (fun g =>
        ⟨p, g, keep_equal_values (lt.map Row.merged),
          (List.range ((lt.head?.map (fun r => r.attrs.length)).getD 0)).map
            (fun j => keep_equal_values (lt.map (fun r => r.attrs.getD j none)))⟩) := by
  simp only [merge_to_single_parts, List.getElem?_map, List.getElem?_enum]
  rcases (M.explode (M.unionAll (lt.map Row.geometry)))[p]? with _ | g <;> simp

lemma add_merged_getElem? (M : GeoModel G) (gdfm gdfo : List (Row G V)) (p : ℕ) :
    (add_merged_geometries_property M gdfm gdfo)[p]? = (gdfm[p]?).map (fun r =>
      { r with merged := if 1 < (get_contained_indices M gdfo r.geometry).length
          then some (get_contained_indices M gdfo r.geometry) else none }) := by
  simp only [add_merged_geometries_property, List.getElem?_map]

/-- C5 (amended): over the consolidated frame, surrogate indices are
allocated sequentially starting at maxIndex gdf + 1 exactly to the entities
whose provenance records more than one original parcel, while an entity
corresponding to at most one original parcel keeps its position index p in
the exploded frame (which is not in general the index of the original
parcel it stems from). -/
theorem C5_surrogate_index_allocation (M : GeoModel G) (gdf lt : List (Row G V))
    (p : ℕ) (e : Row G V)
    (h : ((update_index (add_merged_geometries_property M
        (merge_to_single_parts M lt) gdf) (maxIndex gdf)).1)[p]? = some e) :
    ((get_contained_indices M gdf e.geometry).length ≤ 1 → e.idx = p) ∧
    (1 < (get_contained_indices M gdf e.geometry).length →
      e.idx = maxIndex gdf + 1 +
        ((add_merged_geometries_property M (merge_to_single_parts M lt) gdf).take
          p).countP (fun r => r.merged != none)) := by
  rw [update_index, update_index_go_getElem?, add_merged_getElem?,
    merge_to_single_parts_getElem?] at h
  rcases hg : (M.explode (M.unionAll (lt.map Row.geometry)))[p]? with _ | g
  · rw [hg] at h
    exact absurd h (by simp)
  · rw [hg] at h
    simp only [Option.map_some', Option.some.injEq] at h
    by_cases hlen : 1 < (get_contained_indices M gdf g).length
    · rw [if_pos hlen] at h
      simp only [if_neg (by simp : ¬(some (get_contained_indices M gdf g) =
        (none : Option (List ℕ))))] at h
      subst h
      refine ⟨fun hc => absurd hlen (by simpa using hc), fun _ => rfl⟩
    · rw [if_neg hlen] at h
      simp only [if_pos rfl] at h
      subst h
      exact ⟨fun _ => rfl, fun hc => absurd hc (by simpa using hlen)⟩

/-- C5 counterexample: a single undersized parcel with original index 3; the
consolidated entity corresponds to exactly that one original parcel but gets
index 0 (its position after the explode/reset), not 3. -/
theorem C5_counterexample :
    split_by_rule toyGeo [rowOf 3 [0], rowOf 4 [5, 6]] (some (3/20)) none =
      .ok ([rowOf 3 [0]], [rowOf 4 [5, 6]]) ∧
    (update_index (add_merged_geometries_property toyGeo
        (merge_to_single_parts toyGeo [rowOf 3 [0]]) [rowOf 3 [0], rowOf 4 [5, 6]])
      (maxIndex [rowOf 3 [0], rowOf 4 [5, 6]])).1 = [rowOf 0 [0]] ∧
    get_contained_indices toyGeo [rowOf 3 [0], rowOf 4 [5, 6]]
      ([0] : List ℕ).toFinset = [3] ∧
    (rowOf 0 [0]).idx ≠ 3 := by
  refine ⟨by decide, by decide, by decide, by decide⟩

/-- C5 witness: the same consolidated frame, read through the amended
theorem. -/
theorem C5_witness :
    ((get_contained_indices toyGeo [rowOf 3 [0], rowOf 4 [5, 6]]
        (rowOf 0 [0]).geometry).length ≤ 1 → (rowOf 0 [0]).idx = 0) ∧
    (1 < (get_contained_indices toyGeo [rowOf 3 [0], rowOf 4 [5, 6]]
        (rowOf 0 [0]).geometry).length →
      (rowOf 0 [0]).idx = maxIndex [rowOf 3 [0], rowOf 4 [5, 6]] + 1 +
        ((add_merged_geometries_property toyGeo
          (merge_to_single_parts toyGeo [rowOf 3 [0]])
          [rowOf 3 [0], rowOf 4 [5, 6]]).take 0).countP
            (fun r => r.merged != none)) :=
  C5_surrogate_index_allocation toyGeo [rowOf 3 [0], rowOf 4 [5, 6]]
    [rowOf 3 [0]] 0 (rowOf 0 [0]) (by decide)

/-- C10 witness: a concrete unsupported-criteria failure and a concrete
empty-candidates no-op. -/
theorem C10_witness :
    merge_geometries_by_criteria toyGeo [rowOf 0 [0]]
      ([] : List (Row (Finset ℕ) ℕ)) none = .error .unboundLocal ∧
    merge_geometries_by_criteria toyGeo ([] : List (Row (Finset ℕ) ℕ))
      [rowOf 0 [0]] (some .shortest_boundary) = .ok ([rowOf 0 [0]], []) :=
  ⟨(C10_unsupported_criteria toyGeo).1 [rowOf 0 [0]] [] (by simp),
   (C10_unsupported_criteria toyGeo).2 [rowOf 0 [0]] (some .shortest_boundary)⟩


lemma merge_undersized_stage_spec (M : GeoModel G)
    (gdf gdf_lt gdf_ge : List (Row G V)) {ma mw : Option ℚ}
    (crit : Option MergingCriteria) {con lt2 geUpd ge2 ge3 lt3 : List (Row G V)}
    (hne : gdf_lt.isEmpty = false)
    (hcon : (update_index (add_merged_geometries_property M
      (merge_to_single_parts M gdf_lt) gdf) (maxIndex gdf)).1 = con)
    (hsp : split_by_rule M con ma mw = .ok (lt2, geUpd))
    (hge2 : (if geUpd.isEmpty then gdf_ge else gdf_ge ++ dropna_columns geUpd) = ge2)
    (hmg : merge_geometries_by_criteria M lt2 ge2 crit = .ok (ge3, lt3)) :
    merge_undersized_stage M gdf gdf_lt gdf_ge ma mw crit =
      .ok (if lt3.isEmpty then ge3 else reset_row_index (ge3 ++ lt3)) := by
  unfold merge_undersized_stage
  rw [hne]
  simp only [Bool.false_eq_true, if_false]
  rw [hcon, hsp]
  simp only []
  rw [hge2, hmg]

lemma merge_geometries_spec (M : GeoModel G) (gdf : List (Row G V))
    {ma mw : Option ℚ} (crit : Option MergingCriteria)
    {lt ge upd ltf x : List (Row G V)}
    (hthr : ¬(ma = none ∧ mw = none))
    (hsp : split_by_rule M gdf ma mw = .ok (lt, ge))
    (hst : merge_undersized_stage M gdf lt ge ma mw crit = .ok upd)
    (hsp2 : split_by_rule M (add_merged_geometries_property M upd gdf) ma mw =
      .ok (ltf, x)) :
    merge_geometries M gdf ma mw crit =
      .ok (add_merged_geometries_property M upd gdf, ltf.map Row.idx) := by
  unfold merge_geometries
  rw [if_neg hthr, hsp]
  simp only []
  rw [hst]
  simp only []
  rw [hsp2]

lemma length_le_one_of_all_eq {α : Type} {l : List α} {a : α}
    (hnd : l.Nodup) (h : ∀ x ∈ l, x = a) : l.length ≤ 1 := by
  match l, hnd with
  | [], _ => simp
  | [x], _ => simp
  | x :: y :: t, hnd =>
    have hx : x = a := h x (List.mem_cons_self _ _)
    have hy : y = a := h y (List.mem_cons_of_mem _ (List.mem_cons_self _ _))
    have := List.rel_of_pairwise_cons hnd
      (List.mem_cons_self _ _)
    exact absurd (hx.trans hy.symm) this

lemma nonempty_of_components_length {s : Finset ℕ}
    (h : (components s).length = 1) : s.Nonempty := by
  rcases s.eq_empty_or_nonempty with rfl | hne
  · exact absurd h (by decide)
  · exact hne

lemma geometry_inter_symm :
    Symmetric (fun r s : Row (Finset ℕ) V => r.geometry ∩ s.geometry = ∅) :=
  fun _ _ hab => by
    show _ ∩ _ = ∅
    rw [Finset.inter_comm]
    exact hab

lemma contained_self_le_one {gdf : List (Row (Finset ℕ) V)}
    (hnd : (gdf.map Row.idx).Nodup)
    (hcomp : ∀ r ∈ gdf, (components r.geometry).length = 1)
    (hdisj : gdf.Pairwise (fun r s => r.geometry ∩ s.geometry = ∅))
    {r : Row (Finset ℕ) V} (hr : r ∈ gdf) :
    (get_contained_indices toyGeo gdf r.geometry).length ≤ 1 := by
  unfold get_contained_indices
  rw [List.length_map]
  apply length_le_one_of_all_eq ((hnd.of_map Row.idx).filter _) (a := r)
  intro s hs
  have hsg := (List.mem_filter.1 hs).1
  have hsw : s.geometry ⊆ r.geometry := by
    have h2 := (List.mem_filter.1 hs).2
    simpa [toyGeo] using h2
  by_contra hne
  have hdis : s.geometry ∩ r.geometry = ∅ :=
    hdisj.forall geometry_inter_symm hsg hr hne
  rw [Finset.inter_eq_left.2 hsw] at hdis
  exact (nonempty_of_components_length (hcomp s hsg)).ne_empty hdis

lemma add_merged_self {gdf : List (Row (Finset ℕ) V)}
    (hnd : (gdf.map Row.idx).Nodup)
    (hcomp : ∀ r ∈ gdf, (components r.geometry).length = 1)
    (hdisj : gdf.Pairwise (fun r s => r.geometry ∩ s.geometry = ∅)) :
    add_merged_geometries_property toyGeo gdf gdf =
      gdf.map (fun r => { r with merged := none }) := by
  unfold add_merged_geometries_property
  apply List.map_congr_left
  intro r hr
  have hle := contained_self_le_one hnd hcomp hdisj hr
  simp only []
  rw [if_neg (by omega)]

/-- C6 (amended): re-running merge_geometries on an all-adequate valid
collection performs no merge and keeps indices, geometries and attributes,
but the provenance column is recomputed against the new input and so reset
to null; the reported still-undersized list is empty.  Exact idempotence
fails because provenance is not preserved (see the counterexample). -/
theorem C6_rerun_clears_provenance (gdf : List (Row (Finset ℕ) V))
    (ma mw : Option ℚ) (crit : Option MergingCriteria)
    (hthr : ¬(ma = none ∧ mw = none))
    (hvalid : ValidInput gdf)
    (hall : ∀ r ∈ gdf, ¬ spec_undersized toyGeo ma mw r) :
    merge_geometries toyGeo gdf ma mw crit =
      .ok (gdf.map (fun r => { r with merged := none }), []) := by
  obtain ⟨hnd, hcomp, hdisj⟩ := hvalid
  have hthm : ma ≠ none ∨ mw ≠ none := by
    rcases Classical.em (ma = none) with h1 | h1
    · exact Or.inr (fun h2 => hthr ⟨h1, h2⟩)
    · exact Or.inl h1
  have hsp := split_by_rule_all_adequate toyGeo gdf hthm hall
  have hst : merge_undersized_stage toyGeo gdf [] gdf ma mw crit = .ok gdf := rfl
  have hadd : add_merged_geometries_property toyGeo gdf gdf =
      gdf.map (fun r => { r with merged := none }) :=
    add_merged_self hnd hcomp hdisj
  have hall2 : ∀ r ∈ gdf.map (fun r => { r with merged := none }),
      ¬ spec_undersized toyGeo ma mw r := by
    intro r hr
    rcases List.mem_map.1 hr with ⟨t, ht, rfl⟩
    exact hall t ht
  have hsp2 : split_by_rule toyGeo (add_merged_geometries_property toyGeo gdf gdf)
      ma mw = .ok ([], gdf.map (fun r => { r with merged := none })) := by
    rw [hadd]
    exact split_by_rule_all_adequate toyGeo _ hthm hall2
  have hres := merge_geometries_spec toyGeo gdf crit hthr hsp hst hsp2
  rw [hadd] at hres
  simpa using hres

/-- Counterexample to literal idempotence (claim C6): a first run merges two
adjacent undersized cells into one adequate entity with provenance [0, 1]
and an empty still-undersized report, but the second run on that output
returns the entity with its provenance reset to null, so the collection is
not returned unchanged. -/
theorem C6_counterexample :
    merge_geometries toyGeo ([rowOf 0 [0], rowOf 1 [1]] : List (Row (Finset ℕ) ℕ))
        (some (3/20)) none (some .shortest_boundary) =
      .ok ([⟨2, {0, 1}, some [0, 1], []⟩], []) ∧
    merge_geometries toyGeo ([⟨2, {0, 1}, some [0, 1], []⟩] : List (Row (Finset ℕ) ℕ))
        (some (3/20)) none (some .shortest_boundary) =
      .ok ([⟨2, {0, 1}, none, []⟩], []) ∧
    ([⟨2, {0, 1}, none, []⟩] : List (Row (Finset ℕ) ℕ)) ≠
      [⟨2, {0, 1}, some [0, 1], []⟩] := by
  refine ⟨by decide, by decide, by decide⟩

/-- C1: the coverage invariant fails on a valid input.  Three disjoint
single-part parcels labelled 0, 1, 2 (0.1, 0.1 and 0.2 ha) with
min_area 0.15 ha: parcel 1 merges into parcel 2 but parcel 0 stays
undersized, so the final concat with ignore_index=True renumbers the
output 0, 1 and the provenance recomputation against the original frame
yields [1, 2] for the merged entity and the unmerged leftover keeps the
fresh label 1; original index 0 is lost and index 1 appears twice. -/
theorem C1_coverage_violation :
    ValidInput ([rowOf 0 [0], rowOf 1 [5], rowOf 2 [6, 7]] : List (Row (Finset ℕ) ℕ)) ∧
    merge_geometries toyGeo ([rowOf 0 [0], rowOf 1 [5], rowOf 2 [6, 7]])
        (some (3/20)) none (some .shortest_boundary) =
      .ok ([⟨0, {5, 6, 7}, some [1, 2], []⟩, ⟨1, {0}, none, []⟩], [1]) ∧
    ¬ (coverage_indices ([⟨0, {5, 6, 7}, some [1, 2], []⟩, ⟨1, {0}, none, []⟩] :
        List (Row (Finset ℕ) ℕ))).Perm
      (([rowOf 0 [0], rowOf 1 [5], rowOf 2 [6, 7]] :
        List (Row (Finset ℕ) ℕ)).map Row.idx) := by
  refine ⟨⟨by decide, ?_, ?_⟩, by decide, by decide⟩
  · intro r hr
    fin_cases hr <;> decide
  · refine List.Pairwise.cons ?_ (List.Pairwise.cons ?_
      (List.Pairwise.cons ?_ List.Pairwise.nil)) <;>
        intro s hs <;> fin_cases hs <;> decide

/-- Counterexample to the literal claim C9: an isolated parcel of 0.1 ha
labelled 5, with min_area 0.5 ha, comes back labelled 0 rather than as the
unchanged input row. -/
theorem C9_counterexample :
    merge_geometries toyGeo ([rowOf 5 [0]] : List (Row (Finset ℕ) ℕ))
        (some (1/2)) none (some .shortest_boundary) = .ok ([rowOf 0 [0]], [0]) ∧
    ([rowOf 0 [0]] : List (Row (Finset ℕ) ℕ)) ≠ [rowOf 5 [0]] := by
  refine ⟨by decide, by decide⟩

/-- Witness for the amended C6 theorem: one adequate two-cell parcel with
provenance recorded comes back with the provenance cleared and nothing else
changed. -/
theorem C6_witness :
    (¬((some (3/20 : ℚ) : Option ℚ) = none ∧ (none : Option ℚ) = none)) ∧
    ValidInput ([⟨2, {0, 1}, some [0, 1], []⟩] : List (Row (Finset ℕ) ℕ)) ∧
    (∀ r ∈ ([⟨2, {0, 1}, some [0, 1], []⟩] : List (Row (Finset ℕ) ℕ)),
      ¬ spec_undersized toyGeo (some (3/20)) none r) ∧
    merge_geometries toyGeo ([⟨2, {0, 1}, some [0, 1], []⟩] : List (Row (Finset ℕ) ℕ))
        (some (3/20)) none (some .shortest_boundary) =
      .ok (([⟨2, {0, 1}, some [0, 1], []⟩] : List (Row (Finset ℕ) ℕ)).map
        (fun r => { r with merged := none }), []) := by
  have h1 : ¬((some (3/20 : ℚ) : Option ℚ) = none ∧ (none : Option ℚ) = none) := by
    simp
  have h2 : ValidInput ([⟨2, {0, 1}, some [0, 1], []⟩] : List (Row (Finset ℕ) ℕ)) := by
    refine ⟨by decide, ?_, by simp⟩
    intro r hr
    rw [List.mem_singleton] at hr
    subst hr
    decide
  have h3 : ∀ r ∈ ([⟨2, {0, 1}, some [0, 1], []⟩] : List (Row (Finset ℕ) ℕ)),
      ¬ spec_undersized toyGeo (some (3/20)) none r := by
    intro r hr
    rw [List.mem_singleton] at hr
    subst hr
    rw [spec_undersized_area]
    decide
  exact ⟨h1, h2, h3, C6_rerun_clears_provenance _ _ _ _ h1 h2 h3⟩

theorem C9_isolated_small_parcel (c i : ℕ) (attrs : List (Option V)) :
    merge_geometries toyGeo [⟨i, {c}, none, attrs⟩] (some (1/2)) none
      (some .shortest_boundary) = .ok ([⟨0, {c}, none, attrs⟩], [0]) := by
  have harea : toyGeo.area {c} / 10000 < 1/2 := by
    rw [toy_area_singleton]
    norm_num
  have hnotge : ¬ (toyGeo.area {c} / 10000 ≥ 1/2) := not_le.2 harea
  have hsplit : ∀ (m : Option (List ℕ)) (j : ℕ) (ats : List (Option V)),
      split_by_rule toyGeo [⟨j, {c}, m, ats⟩] (some (1/2)) none =
        .ok ([⟨j, {c}, m, ats⟩], []) := by
    intro m j ats
    have hstep : split_by_rule toyGeo [(⟨j, {c}, m, ats⟩ : Row (Finset ℕ) V)]
        (some (1/2)) none =
        .ok (split_by_min_area toyGeo [⟨j, {c}, m, ats⟩] (1/2)) := rfl
    rw [hstep]
    unfold split_by_min_area
    rw [List.filter_cons, List.filter_cons, decide_eq_true harea,
      decide_eq_false hnotge]
    simp
  have hmts : merge_to_single_parts toyGeo [(⟨i, {c}, none, attrs⟩ : Row (Finset ℕ) V)] =
      [⟨0, {c}, none, attrs⟩] := by
    simp [merge_to_single_parts, toyGeo, components_singleton,
      keep_equal_values_singleton, map_getD_range, List.enum]
  have hadd : ∀ (ats : List (Option V)),
      add_merged_geometries_property toyGeo [(⟨0, {c}, none, ats⟩ : Row (Finset ℕ) V)]
        [⟨i, {c}, none, attrs⟩] = [⟨0, {c}, none, ats⟩] := by
    intro ats
    simp [add_merged_geometries_property, get_contained_indices, toyGeo]
  have hcon : (update_index (add_merged_geometries_property toyGeo
      (merge_to_single_parts toyGeo [⟨i, {c}, none, attrs⟩]) [⟨i, {c}, none, attrs⟩])
      (maxIndex ([⟨i, {c}, none, attrs⟩] : List (Row (Finset ℕ) V)))).1 =
      [⟨0, {c}, none, attrs⟩] := by
    rw [hmts, hadd attrs]
    rfl
  have hstage := merge_undersized_stage_spec toyGeo [⟨i, {c}, none, attrs⟩]
    [⟨i, {c}, none, attrs⟩] [] (some .shortest_boundary) (by simp) hcon
    (hsplit none 0 attrs) rfl (mgbc_single_no_targets toyGeo (⟨0, {c}, none, attrs⟩ : Row (Finset ℕ) V))
  have hreset : (if ([(⟨0, {c}, none, attrs⟩ : Row (Finset ℕ) V)]).isEmpty
      then ([] : List (Row (Finset ℕ) V))
      else reset_row_index ([] ++ [⟨0, {c}, none, attrs⟩])) =
      [⟨0, {c}, none, attrs⟩] := rfl
  rw [hreset] at hstage
  have hfinal := merge_geometries_spec toyGeo [⟨i, {c}, none, attrs⟩]
    (some .shortest_boundary) (by simp) (hsplit none i attrs) hstage
    (by rw [hadd attrs]; exact hsplit none 0 attrs)
  rw [hfinal, hadd attrs]
  rfl

end ParcelWFS

